import Mathlib

/-!
The in-memory file table of `simplefs/simplefs.c`.

A shallow embedding of the file-table engine (`sfs_file_new`, `sfs_file_lookup`,
`sfs_file_read`, `sfs_file_write`, `init_ctx`, `destroy_ctx`) and of the adapter functions
`simplefs_create`, `simplefs_read`, `simplefs_write` and `simplefs_readdir`, and theorems
about them.

Conventions of the embedding.

* A `char` buffer is a `List Char`; the length of the list is the number of bytes of the
  object the pointer refers to.  A C string is the list of its characters before the
  terminating NUL.
* `size_t` is a natural number below `2 ^ 64`, `off_t` a 64-bit and `int` a 32-bit signed
  integer; every conversion between them is written out (`to_size_t`, `to_int`).
* The global `ctx` is passed explicitly; the `STAILQ` of records is a `List`, head first.
* `memcpy` outside the bounds of either object is undefined behaviour: the embedding
  returns `none` for it.
* A pointer to a record of the table is the position of the record in the list.
* The directory listing that `simplefs_readdir` fills is the list of the entry names passed
  to `filler`, in order.
* The `debug` output on stderr is not part of the model.
-/

namespace SimpleFS

/-! ## Constants and integer conversions -/

/-- The constant `#define MAX_FILE_N (10)`. -/
def MAX_FILE_N : Int := 10

/-- The constant `#define MAX_FILE_SIZE (1024)`. -/
def MAX_FILE_SIZE : Int := 1024

/-- Conversion of a signed integer to `size_t` (reduction modulo `2 ^ 64`). -/
def to_size_t (x : Int) : Nat := (x % (2 ^ 64 : Int)).toNat

/-- Conversion of a `size_t` to `int` (gcc: reduction modulo `2 ^ 32` into the signed
range). -/
def to_int (n : Nat) : Int :=
  if n % 2 ^ 32 < 2 ^ 31 then ((n % 2 ^ 32 : Nat) : Int) else ((n % 2 ^ 32 : Nat) : Int) - 2 ^ 32

/-- Subtraction of two `size_t` values (wraps modulo `2 ^ 64`). -/
def size_t_sub (a b : Nat) : Nat := (a + 2 ^ 64 - b % 2 ^ 64) % 2 ^ 64

/-- The macro `#define SFS_MIN(a, b) ((a) > (b) ? (a) : (b))`, at type `size_t`. -/
def SFS_MIN (a b : Nat) : Nat := if a > b then a else b

/-! ## Memory -/

/-- The call `memcpy (dst + doff, src + soff, n)`: the new contents of the object `dst`, or
`none` when the copy leaves the bounds of `dst` or of `src`. -/
def memcpy (dst : List Char) (doff : Int) (src : List Char) (soff : Int) (n : Nat) :
    Option (List Char) :=
  if 0 ≤ doff ∧ 0 ≤ soff ∧ soff.toNat + n ≤ src.length ∧ doff.toNat + n ≤ dst.length then
    some (dst.take doff.toNat ++ (src.drop soff.toNat).take n ++ dst.drop (doff.toNat + n))
  else none

/-! ## Data model -/

/-- The record `struct sfs_file` (the list link is the position in `sfs_ctx.sfs_files`). -/
structure sfs_file where
  sfs_name : List Char
  sfs_data : List Char
  sfs_size : Int
  deriving DecidableEq, Repr

/-- The table `struct sfs_ctx`. -/
structure sfs_ctx where
  sfs_files : List sfs_file
  sfs_file_n : Int
  deriving DecidableEq, Repr

/-- Results of the three allocations `sfs_file_new` performs: `malloc (sizeof *new_file)`,
`strdup (name)` and `malloc (len)`; `true` means a non-NULL result. -/
structure heap_oracle where
  file_ok : Bool
  name_ok : Bool
  data_ok : Bool
  deriving DecidableEq, Repr

/-- The heap on which every allocation succeeds. -/
def heap_ok : heap_oracle := ⟨true, true, true⟩

/-! ## Operations -/

/-- The statement `if (name[0] == '/') name = name + 1;`. -/
def skip_slash (name : List Char) : List Char :=
  if name.head? = some '/' then name.tail else name

/-- The function `sfs_file_new (name, content, len)`: the returned `int` and the new table. -/
def sfs_file_new (ctx : sfs_ctx) (name content : List Char) (len : Int) (heap : heap_oracle) :
    Option (Int × sfs_ctx) :=
  if ctx.sfs_file_n ≥ MAX_FILE_N then some (-1, ctx)
  else if len < 0 ∨ len ≥ MAX_FILE_SIZE then some (-1, ctx)
  else
    let name := skip_slash name
    if heap.file_ok = false then some (-1, ctx)
    else if heap.name_ok = false then some (-1, ctx)
    else if heap.data_ok = false then some (-1, ctx)
    else
      match memcpy (List.replicate (to_size_t len) '\x00') 0 content 0 (to_size_t len) with
      | none => none
      | some data =>
        some (0, { sfs_files := { sfs_name := name, sfs_data := data, sfs_size := len }
                                  :: ctx.sfs_files,
                   sfs_file_n := ctx.sfs_file_n + 1 })

/-- The `STAILQ_FOREACH` loop of `sfs_file_lookup`, `pos` being the position of the head of
`files` in the table. -/
def lookup_loop (name : List Char) : List sfs_file → Nat → Option Nat
  | [], _ => none
  | file :: rest, pos =>
    if name = file.sfs_name then some pos else lookup_loop name rest (pos + 1)

/-- The function `sfs_file_lookup (name)`: the position in the table of the record returned
(`none` for `NULL`), and the table after the call. -/
def sfs_file_lookup (ctx : sfs_ctx) (name : List Char) : Option Nat × sfs_ctx :=
  let name := skip_slash name
  (lookup_loop name ctx.sfs_files 0, ctx)

/-- The local `to_read` of `sfs_file_read`, computed when `offset < file_size`. -/
def to_read (file : sfs_file) (size : Nat) (offset : Int) : Int :=
  to_int (SFS_MIN size (size_t_sub (to_size_t file.sfs_size) (to_size_t offset)))

/-- The function `sfs_file_read (file, buf, size, offset)`: the returned `int` and the
caller's buffer after the call. -/
def sfs_file_read (file : sfs_file) (buf : List Char) (size : Nat) (offset : Int) :
    Option (Int × List Char) :=
  let file_size : Nat := to_size_t file.sfs_size
  if to_size_t offset ≥ file_size then some (0, buf)
  else
    match memcpy buf 0 file.sfs_data offset (to_size_t (to_read file size offset)) with
    | none => none
    | some buf' => some (to_read file size offset, buf')

/-- The local `to_write` of `sfs_file_write`, computed when `offset < file_size`. -/
def to_write (file : sfs_file) (size : Nat) (offset : Int) : Int :=
  to_int (SFS_MIN size (size_t_sub (to_size_t file.sfs_size) (to_size_t offset)))

/-- The function `sfs_file_write (file, buf, size, offset)`: the returned `int` and the
record after the call. -/
def sfs_file_write (file : sfs_file) (buf : List Char) (size : Nat) (offset : Int) :
    Option (Int × sfs_file) :=
  let file_size : Nat := to_size_t file.sfs_size
  if to_size_t offset ≥ file_size then some (0, file)
  else
    match memcpy file.sfs_data offset buf 0 (to_size_t (to_write file size offset)) with
    | none => none
    | some data => some (to_write file size offset, { file with sfs_data := data })

/-- The function `init_ctx ()`: the table after initialisation, whatever it held before. -/
def init_ctx (_ctx : sfs_ctx) : sfs_ctx :=
  { sfs_files := [], sfs_file_n := 0 }

/-! ## Runs and sample data -/

/-- The arguments of one call of `sfs_file_new`, with the allocator's answers. -/
structure new_call where
  name : List Char
  content : List Char
  len : Int
  heap : heap_oracle
  deriving DecidableEq, Repr

/-- A sequence of `sfs_file_new` calls run from `ctx`; `none` when a call is undefined. -/
def sfs_file_new_seq : sfs_ctx → List new_call → Option sfs_ctx
  | ctx, [] => some ctx
  | ctx, c :: cs =>
    match sfs_file_new ctx c.name c.content c.len c.heap with
    | none => none
    | some (_, ctx') => sfs_file_new_seq ctx' cs

/-- The table before `init_ctx`: the zero-initialised static `ctx`. -/
def ctx_zero : sfs_ctx := { sfs_files := [], sfs_file_n := 0 }

/-- The string literal `"hello world!"` with its terminating NUL: 13 bytes. -/
def hello_world : List Char := "hello world!\x00".toList

/-- The record made by `sfs_file_new ("hello", "hello world!", 13)` in `simplefs_init`. -/
def hello_file : sfs_file :=
  { sfs_name := "hello".toList, sfs_data := hello_world, sfs_size := 13 }

/-- Eleven calls `sfs_file_new ("f", "x", 1)` on a heap with room. -/
def eleven_creates : List new_call :=
  List.replicate 11 { name := "f".toList, content := "x".toList, len := 1, heap := heap_ok }

/-- The table holding ten one-byte records named `f`. -/
def ten_files : sfs_ctx :=
  { sfs_files := List.replicate 10
      { sfs_name := "f".toList, sfs_data := "x".toList, sfs_size := 1 },
    sfs_file_n := 10 }

/-- A table of three records, two of them named `foo`. -/
def foo_bar_foo : sfs_ctx :=
  { sfs_files := [{ sfs_name := "foo".toList, sfs_data := "new".toList, sfs_size := 3 },
                  { sfs_name := "bar".toList, sfs_data := "b".toList, sfs_size := 1 },
                  { sfs_name := "foo".toList, sfs_data := "old".toList, sfs_size := 3 }],
    sfs_file_n := 3 }

/-! ## Teardown and the adapter -/

/-- The constant `ENOENT` of `<errno.h>`, with its Linux value. -/
def ENOENT : Int := 2

/-- The constant `ENOSPC` of `<errno.h>`, with its Linux value. -/
def ENOSPC : Int := 28

/-- The `while` loop of `destroy_ctx`: each turn removes the head record, frees it and
decrements `sfs_file_n`. -/
def destroy_loop : List sfs_file → Int → sfs_ctx
  | [], n => { sfs_files := [], sfs_file_n := n }
  | _ :: rest, n => destroy_loop rest (n - 1)

/-- The function `destroy_ctx ()`: the table after teardown. -/
def destroy_ctx (ctx : sfs_ctx) : sfs_ctx :=
  destroy_loop ctx.sfs_files ctx.sfs_file_n

/-- The call `sfs_file_write (file, buf, size, offset)` with `file` pointing to the record at
position `pos` of the table: the returned `int` and the table after the call.  A `pos`
outside the table is no pointer to a record. -/
def sfs_file_write_at (ctx : sfs_ctx) (pos : Nat) (buf : List Char) (size : Nat)
    (offset : Int) : Option (Int × sfs_ctx) :=
  match ctx.sfs_files[pos]? with
  | none => none
  | some file =>
    match sfs_file_write file buf size offset with
    | none => none
    | some (ret, file') => some (ret, { ctx with sfs_files := ctx.sfs_files.set pos file' })

/-- The call `sfs_file_read (file, buf, size, offset)` with `file` pointing to the record at
position `pos` of the table: the returned `int`, the caller's buffer and the table after the
call. -/
def sfs_file_read_at (ctx : sfs_ctx) (pos : Nat) (buf : List Char) (size : Nat)
    (offset : Int) : Option (Int × List Char × sfs_ctx) :=
  match ctx.sfs_files[pos]? with
  | none => none
  | some file =>
    match sfs_file_read file buf size offset with
    | none => none
    | some (ret, buf') => some (ret, buf', ctx)

/-- The string literal `""` that `simplefs_create` passes as content: one NUL byte. -/
def empty_literal : List Char := "\x00".toList

/-- The function `simplefs_create (name, mode, data)`: the returned status and the table
after the call. -/
def simplefs_create (ctx : sfs_ctx) (name : List Char) (heap : heap_oracle) :
    Option (Int × sfs_ctx) :=
  if ctx.sfs_file_n ≥ MAX_FILE_N then some (-ENOSPC, ctx)
  else
    match sfs_file_new ctx name empty_literal 1 heap with
    | none => none
    | some (ret, ctx') => if 0 = ret then some (0, ctx') else some (-ENOSPC, ctx')

/-- The function `simplefs_write (name, buf, size, offset, data)`: the returned status or
count and the table after the call. -/
def simplefs_write (ctx : sfs_ctx) (name buf : List Char) (size : Nat) (offset : Int) :
    Option (Int × sfs_ctx) :=
  match (sfs_file_lookup ctx name).1 with
  | none => some (-ENOENT, ctx)
  | some pos => sfs_file_write_at ctx pos buf size offset

/-- The function `simplefs_read (path, buf, size, offset, fi)`: the returned status or count,
the caller's buffer and the table after the call. -/
def simplefs_read (ctx : sfs_ctx) (path buf : List Char) (size : Nat) (offset : Int) :
    Option (Int × List Char × sfs_ctx) :=
  match (sfs_file_lookup ctx path).1 with
  | none => some (-ENOENT, buf, ctx)
  | some pos => sfs_file_read_at ctx pos buf size offset

/-- The path of the root directory, `"/"`. -/
def root_path : List Char := "/".toList

/-- The directory entry `"."`. -/
def dot_entry : List Char := ".".toList

/-- The directory entry `".."`. -/
def dotdot_entry : List Char := "..".toList

/-- The `STAILQ_FOREACH` loop of `simplefs_readdir`; a call `filler (buf, name, NULL, 0)` adds
the entry `name` at the end of the listing `buf`. -/
def readdir_loop : List sfs_file → List (List Char) → List (List Char)
  | [], buf => buf
  | file :: rest, buf => readdir_loop rest (buf ++ [file.sfs_name])

/-- The function `simplefs_readdir (path, buf, filler, offset, fi)`: the returned status and
the listing after the call. -/
def simplefs_readdir (ctx : sfs_ctx) (path : List Char) (buf : List (List Char)) :
    Int × List (List Char) :=
  if path ≠ root_path then (-ENOENT, buf)
  else (0, readdir_loop ctx.sfs_files ((buf ++ [dot_entry]) ++ [dotdot_entry]))

/-! ## Runs of the table operations -/

/-- One call on the table: `sfs_file_new`, `sfs_file_write` on the record at a position,
`simplefs_create`, `simplefs_write` or `destroy_ctx`. -/
inductive sfs_op where
  | file_new (c : new_call)
  | file_write (pos : Nat) (buf : List Char) (size : Nat) (offset : Int)
  | create (name : List Char) (heap : heap_oracle)
  | write (name buf : List Char) (size : Nat) (offset : Int)
  | destroy
  deriving DecidableEq, Repr

/-- The table after one call; `none` when the call is undefined. -/
def sfs_step (ctx : sfs_ctx) : sfs_op → Option sfs_ctx
  | sfs_op.file_new c => (sfs_file_new ctx c.name c.content c.len c.heap).map Prod.snd
  | sfs_op.file_write pos buf size offset =>
    (sfs_file_write_at ctx pos buf size offset).map Prod.snd
  | sfs_op.create name heap => (simplefs_create ctx name heap).map Prod.snd
  | sfs_op.write name buf size offset => (simplefs_write ctx name buf size offset).map Prod.snd
  | sfs_op.destroy => some (destroy_ctx ctx)

/-- The table after a sequence of calls run from `ctx`; `none` when a call is undefined. -/
def sfs_run : sfs_ctx → List sfs_op → Option sfs_ctx
  | ctx, [] => some ctx
  | ctx, op :: ops =>
    match sfs_step ctx op with
    | none => none
    | some ctx' => sfs_run ctx' ops

/-- A run that creates `hello` and `a`, overwrites the whole of `hello` and the one byte of
`a`, and writes to a missing file. -/
def sample_ops : List sfs_op :=
  [sfs_op.file_new { name := "hello".toList, content := hello_world, len := 13,
                     heap := heap_ok },
   sfs_op.create "/a".toList heap_ok,
   sfs_op.file_write 1 "HELLO, WORLD+".toList 13 0,
   sfs_op.write "/a".toList "A".toList 1 0,
   sfs_op.write "/missing".toList "A".toList 1 0]

/-- The table that `sample_ops` leaves when run from an initialised table. -/
def sample_table : sfs_ctx :=
  { sfs_files := [{ sfs_name := "a".toList, sfs_data := "A".toList, sfs_size := 1 },
                  { sfs_name := "hello".toList, sfs_data := "HELLO, WORLD+".toList,
                    sfs_size := 13 }],
    sfs_file_n := 2 }

/-- The table that `sfs_file_new ("//foo", "x", 1)` makes of an empty one. -/
def slash_foo_table : sfs_ctx :=
  { sfs_files := [{ sfs_name := "/foo".toList, sfs_data := "x".toList, sfs_size := 1 }],
    sfs_file_n := 1 }

/-- Two calls `sfs_file_new ("foo", "x", 1)`. -/
def foo_twice : List new_call :=
  List.replicate 2 { name := "foo".toList, content := "x".toList, len := 1, heap := heap_ok }

/-- The table that `foo_twice` leaves when run from an initialised table. -/
def foo_twice_table : sfs_ctx :=
  { sfs_files := List.replicate 2
      { sfs_name := "foo".toList, sfs_data := "x".toList, sfs_size := 1 },
    sfs_file_n := 2 }

/-- The calls `sfs_file_new ("/foo", "x", 1)` and `sfs_file_new ("bar", "x", 1)`. -/
def foo_then_bar : List new_call :=
  [{ name := "/foo".toList, content := "x".toList, len := 1, heap := heap_ok },
   { name := "bar".toList, content := "x".toList, len := 1, heap := heap_ok }]

/-- The table that `foo_then_bar` leaves when run from an initialised table. -/
def bar_foo_table : sfs_ctx :=
  { sfs_files := [{ sfs_name := "bar".toList, sfs_data := "x".toList, sfs_size := 1 },
                  { sfs_name := "foo".toList, sfs_data := "x".toList, sfs_size := 1 }],
    sfs_file_n := 2 }

/-- The record that `simplefs_create ("/a")` makes: one NUL byte. -/
def one_byte_file : sfs_file :=
  { sfs_name := "a".toList, sfs_data := empty_literal, sfs_size := 1 }

/-- The table that `simplefs_create ("/a")` makes of an initialised one. -/
def one_byte_table : sfs_ctx :=
  { sfs_files := [one_byte_file], sfs_file_n := 1 }

/-- The run `simplefs_create ("/a")`, then `simplefs_write ("/a", "AB", 2, 0)`. -/
def create_then_write_two : List sfs_op :=
  [sfs_op.create "/a".toList heap_ok, sfs_op.write "/a".toList "AB".toList 2 0]

/-- A record whose size is between 0 and `MAX_FILE_SIZE - 1` and whose data buffer holds
exactly that many bytes. -/
def record_ok (file : sfs_file) : Prop :=
  0 ≤ file.sfs_size ∧ file.sfs_size ≤ MAX_FILE_SIZE - 1 ∧
    (file.sfs_data.length : Int) = file.sfs_size

instance (file : sfs_file) : Decidable (record_ok file) := by
  unfold record_ok
  infer_instance

/-- A table whose counter is the number of its records and whose records are all
`record_ok`. -/
def table_ok (ctx : sfs_ctx) : Prop :=
  ctx.sfs_file_n = ctx.sfs_files.length ∧ ∀ file ∈ ctx.sfs_files, record_ok file

instance (ctx : sfs_ctx) : Decidable (table_ok ctx) := by
  unfold table_ok
  infer_instance

/-! ## Integer conversions inside the ranges of the types -/

theorem to_size_t_of_nonneg (x : Int) (h0 : 0 ≤ x) (h1 : x < 2 ^ 64) :
    to_size_t x = x.toNat := by
  unfold to_size_t
  rw [Int.emod_eq_of_lt h0 h1]

theorem to_size_t_le_of_le (a b : Int) (ha : 0 ≤ a) (hab : a ≤ b) (hb : b < 2 ^ 63) :
    to_size_t a ≤ to_size_t b := by
  rw [to_size_t_of_nonneg a ha (by omega), to_size_t_of_nonneg b (by omega) (by omega)]
  omega

/-- Inside the ranges of the types, and before the end of the record, the count computed by
`sfs_file_read` is the larger of the requested size and the bytes left. -/
theorem to_read_eq_max (file : sfs_file) (size : Nat) (offset : Int)
    (hS : file.sfs_size < 2 ^ 31) (ho : 0 ≤ offset) (hlt : offset < file.sfs_size)
    (hsz : size < 2 ^ 31) :
    to_read file size offset = max (size : Int) (file.sfs_size - offset) := by
  unfold to_read
  rw [to_size_t_of_nonneg _ (by omega) (by omega), to_size_t_of_nonneg _ ho (by omega)]
  unfold size_t_sub SFS_MIN to_int
  have e1 : offset.toNat % 2 ^ 64 = offset.toNat := Nat.mod_eq_of_lt (by omega)
  have e2 : (file.sfs_size.toNat + 2 ^ 64 - offset.toNat) % 2 ^ 64
      = file.sfs_size.toNat - offset.toNat := by omega
  rw [e1, e2]
  split <;> rename_i hc
  · have e3 : size % 2 ^ 32 = size := Nat.mod_eq_of_lt (by omega)
    rw [e3, if_pos hsz]
    omega
  · have e3 : (file.sfs_size.toNat - offset.toNat) % 2 ^ 32
        = file.sfs_size.toNat - offset.toNat := Nat.mod_eq_of_lt (by omega)
    rw [e3, if_pos (by omega)]
    omega

/-- The count computed by `sfs_file_write` is the one computed by `sfs_file_read`. -/
theorem to_write_eq_to_read (file : sfs_file) (size : Nat) (offset : Int) :
    to_write file size offset = to_read file size offset := rfl

/-! ## Read and write -/

/-- C1: on the 13-byte record holding "hello world!", a read of 5 bytes at offset 0 computes
the count 13, not 5: it overruns a 5-byte caller buffer, and with a 16-byte caller buffer it
returns 13 and copies all 13 bytes of the record.  A read of 5 bytes at offset 11 computes
the count 5 and a read of 10 bytes at offset 12 (the last byte) the count 10, and both copy
from beyond the end of the record. -/
theorem sfs_file_read_hello_takes_larger :
    to_read hello_file 5 0 = 13 ∧
    sfs_file_read hello_file (List.replicate 5 'z') 5 0 = none ∧
    sfs_file_read hello_file (List.replicate 16 'z') 5 0
      = some (13, "hello world!\x00zzz".toList) ∧
    to_read hello_file 5 11 = 5 ∧
    sfs_file_read hello_file (List.replicate 16 'z') 5 11 = none ∧
    to_read hello_file 10 12 = 10 ∧
    sfs_file_read hello_file (List.replicate 16 'z') 10 12 = none := by
  decide

/-- C2: on the 13-byte record holding "hello world!", a write of 5 bytes at offset 0 computes
the count 13, not 5: it reads beyond a 5-byte caller buffer, and with a 16-byte caller buffer
it returns 13 and overwrites all 13 bytes of the record, bytes 5 to 12 included.  A write of
5 bytes at offset 11 computes the count 5 and copies beyond the end of the record. -/
theorem sfs_file_write_hello_takes_larger :
    to_write hello_file 5 0 = 13 ∧
    sfs_file_write hello_file "HELLO".toList 5 0 = none ∧
    sfs_file_write hello_file "HELLO, WORLD+###".toList 5 0
      = some (13, { hello_file with sfs_data := "HELLO, WORLD+".toList }) ∧
    to_write hello_file 5 11 = 5 ∧
    sfs_file_write hello_file "HELLO, WORLD+###".toList 5 11 = none := by
  decide

/-- C3: on the 13-byte record holding "hello world!", writing the 5-byte buffer "HELLO" at
offset 0 and reading 5 bytes back at offset 0 is undefined (the write copies 13 bytes out of
the 5-byte buffer); when both caller buffers have 16 bytes the write is defined and the read
that follows returns 13, not 5, with 13 bytes copied out. -/
theorem write_then_read_hello_not_n :
    ((sfs_file_write hello_file "HELLO".toList 5 0).bind
      (fun w => sfs_file_read w.2 (List.replicate 5 'z') 5 0)) = none ∧
    ((sfs_file_write hello_file "HELLO, WORLD+###".toList 5 0).bind
      (fun w => sfs_file_read w.2 (List.replicate 16 'z') 5 0))
      = some (13, "HELLO, WORLD+zzz".toList) := by
  decide

/-- C4: for a record of size `S ≥ 0` and an offset `≥ S` (within `off_t`), `sfs_file_read`
returns 0 and the caller's buffer is unchanged, whatever size is requested. -/
theorem sfs_file_read_at_or_past_end (file : sfs_file) (buf : List Char) (size : Nat)
    (offset : Int) (hS : 0 ≤ file.sfs_size) (ho : file.sfs_size ≤ offset)
    (hr : offset < 2 ^ 63) :
    sfs_file_read file buf size offset = some (0, buf) := by
  unfold sfs_file_read
  simp only []
  rw [if_pos (to_size_t_le_of_le _ _ hS ho hr)]

theorem sfs_file_read_at_or_past_end_witness :
    sfs_file_read hello_file (List.replicate 5 'z') 5 13 = some (0, List.replicate 5 'z') :=
  sfs_file_read_at_or_past_end hello_file (List.replicate 5 'z') 5 13
    (by decide) (by decide) (by decide)

/-- C5: for a record of size `S ≥ 0` and an offset `≥ S` (within `off_t`), `sfs_file_write`
returns 0 and the record (name, data and size) is unchanged, whatever buffer and size are
passed. -/
theorem sfs_file_write_at_or_past_end (file : sfs_file) (buf : List Char) (size : Nat)
    (offset : Int) (hS : 0 ≤ file.sfs_size) (ho : file.sfs_size ≤ offset)
    (hr : offset < 2 ^ 63) :
    sfs_file_write file buf size offset = some (0, file) := by
  unfold sfs_file_write
  simp only []
  rw [if_pos (to_size_t_le_of_le _ _ hS ho hr)]

theorem sfs_file_write_at_or_past_end_witness :
    sfs_file_write hello_file "HELLO".toList 5 13 = some (0, hello_file) :=
  sfs_file_write_at_or_past_end hello_file "HELLO".toList 5 13
    (by decide) (by decide) (by decide)

/-! ## Lookup -/

theorem skip_slash_cons_slash (n : List Char) : skip_slash ('/' :: n) = n := by
  simp [skip_slash]

theorem skip_slash_of_no_slash (n : List Char) (hn : n.head? ≠ some '/') :
    skip_slash n = n := by
  unfold skip_slash
  rw [if_neg hn]

theorem lookup_loop_shift (name : List Char) (files : List sfs_file) (pos : Nat) :
    lookup_loop name files pos = (lookup_loop name files 0).map (fun i => i + pos) := by
  induction files generalizing pos with
  | nil => simp [lookup_loop]
  | cons f rest ih =>
    unfold lookup_loop
    by_cases h : name = f.sfs_name
    · simp [h]
    · rw [if_neg h, if_neg h, ih (pos + 1), ih (0 + 1), Option.map_map]
      congr 1
      funext i
      simp only [Function.comp]
      omega

theorem lookup_loop_eq_none (name : List Char) (files : List sfs_file) (pos : Nat) :
    lookup_loop name files pos = none ↔ ∀ r ∈ files, r.sfs_name ≠ name := by
  induction files generalizing pos with
  | nil => simp [lookup_loop]
  | cons f rest ih =>
    unfold lookup_loop
    by_cases h : name = f.sfs_name
    · simp [h]
    · rw [if_neg h, ih (pos + 1)]
      simp only [List.mem_cons, forall_eq_or_imp]
      exact ⟨fun hr => ⟨fun e => h e.symm, hr⟩, fun hr => hr.2⟩

theorem lookup_loop_eq_some (name : List Char) (files : List sfs_file) (i : Nat) :
    lookup_loop name files 0 = some i ↔
      (∃ r, files[i]? = some r ∧ r.sfs_name = name) ∧
        ∀ j, j < i → ∀ r, files[j]? = some r → r.sfs_name ≠ name := by
  induction files generalizing i with
  | nil => simp [lookup_loop]
  | cons f rest ih =>
    unfold lookup_loop
    by_cases h : name = f.sfs_name
    · rw [if_pos h]
      constructor
      · intro e
        have hi : i = 0 := by simpa using e.symm
        subst hi
        exact ⟨⟨f, by simp, h.symm⟩, fun j hj => absurd hj (Nat.not_lt_zero j)⟩
      · rintro ⟨_, hfirst⟩
        cases i with
        | zero => rfl
        | succ k => exact absurd h.symm (hfirst 0 (Nat.succ_pos k) f (by simp))
    · rw [if_neg h, lookup_loop_shift]
      cases i with
      | zero =>
        constructor
        · intro e
          cases hl : lookup_loop name rest 0 with
          | none => rw [hl] at e; simp at e
          | some k => rw [hl] at e; simp at e
        · rintro ⟨⟨r, hr, hname⟩, _⟩
          simp only [List.getElem?_cons_zero, Option.some.injEq] at hr
          exact absurd (hr ▸ hname).symm h
      | succ k =>
        have step : (lookup_loop name rest 0).map (fun i => i + (0 + 1)) = some (k + 1) ↔
            lookup_loop name rest 0 = some k := by
          cases lookup_loop name rest 0 with
          | none => simp
          | some m => simp
        rw [step, ih k]
        simp only [List.getElem?_cons_succ]
        constructor
        · rintro ⟨hex, hfirst⟩
          refine ⟨hex, fun j hj r hr => ?_⟩
          cases j with
          | zero =>
            simp only [List.getElem?_cons_zero, Option.some.injEq] at hr
            exact fun e => h (hr ▸ e).symm
          | succ m =>
            simp only [List.getElem?_cons_succ] at hr
            exact hfirst m (by omega) r hr
        · rintro ⟨hex, hfirst⟩
          exact ⟨hex, fun j hj r hr => hfirst (j + 1) (by omega) r (by simpa using hr)⟩

/-! ## Create -/

theorem memcpy_fresh (content : List Char) (k : Nat) (c : Char) :
    memcpy (List.replicate k c) 0 content 0 k
      = if k ≤ content.length then some (content.take k) else none := by
  unfold memcpy
  by_cases h : k ≤ content.length
  · simp [h]
  · simp [h]

theorem sfs_file_new_full (ctx : sfs_ctx) (name content : List Char) (len : Int)
    (heap : heap_oracle) (h : ctx.sfs_file_n ≥ MAX_FILE_N) :
    sfs_file_new ctx name content len heap = some (-1, ctx) := by
  unfold sfs_file_new
  rw [if_pos h]

theorem sfs_file_new_bad_len (ctx : sfs_ctx) (name content : List Char) (len : Int)
    (heap : heap_oracle) (h : len < 0 ∨ len ≥ MAX_FILE_SIZE) :
    sfs_file_new ctx name content len heap = some (-1, ctx) := by
  unfold sfs_file_new
  by_cases hn : ctx.sfs_file_n ≥ MAX_FILE_N
  · rw [if_pos hn]
  · rw [if_neg hn, if_pos h]

theorem sfs_file_new_ok (ctx : sfs_ctx) (name content : List Char) (len : Int)
    (hn : ctx.sfs_file_n < MAX_FILE_N) (h0 : 0 ≤ len) (h1 : len < MAX_FILE_SIZE)
    (hc : len ≤ content.length) :
    sfs_file_new ctx name content len heap_ok
      = some (0, { sfs_files := { sfs_name := skip_slash name,
                                  sfs_data := content.take len.toNat,
                                  sfs_size := len } :: ctx.sfs_files,
                   sfs_file_n := ctx.sfs_file_n + 1 }) := by
  have hsz : to_size_t len = len.toNat :=
    to_size_t_of_nonneg len h0 (by unfold MAX_FILE_SIZE at h1; omega)
  unfold sfs_file_new
  rw [if_neg (by omega), if_neg (by omega)]
  simp only [heap_ok, Bool.true_eq_false, if_false]
  rw [memcpy_fresh, hsz, if_pos (by omega)]

/-- Every call of `sfs_file_new` is undefined, or fails with -1 and the table unchanged, or
returns 0 on a table that was not full with one record added at the head. -/
theorem sfs_file_new_cases (ctx : sfs_ctx) (name content : List Char) (len : Int)
    (heap : heap_oracle) :
    sfs_file_new ctx name content len heap = none ∨
    sfs_file_new ctx name content len heap = some (-1, ctx) ∨
    (ctx.sfs_file_n < MAX_FILE_N ∧ 0 ≤ len ∧ len < MAX_FILE_SIZE ∧
      sfs_file_new ctx name content len heap
        = some (0, { sfs_files := { sfs_name := skip_slash name,
                                    sfs_data := content.take len.toNat,
                                    sfs_size := len } :: ctx.sfs_files,
                     sfs_file_n := ctx.sfs_file_n + 1 })) := by
  by_cases hn : ctx.sfs_file_n ≥ MAX_FILE_N
  · exact Or.inr (Or.inl (sfs_file_new_full ctx name content len heap hn))
  by_cases hl : len < 0 ∨ len ≥ MAX_FILE_SIZE
  · exact Or.inr (Or.inl (sfs_file_new_bad_len ctx name content len heap hl))
  have h0 : 0 ≤ len := by omega
  have h1 : len < MAX_FILE_SIZE := by omega
  have hsz : to_size_t len = len.toNat :=
    to_size_t_of_nonneg len h0 (by unfold MAX_FILE_SIZE at h1; omega)
  unfold sfs_file_new
  rw [if_neg hn, if_neg hl]
  simp only []
  by_cases h1 : heap.file_ok = false
  · rw [if_pos h1]; exact Or.inr (Or.inl rfl)
  by_cases h2 : heap.name_ok = false
  · rw [if_neg h1, if_pos h2]; exact Or.inr (Or.inl rfl)
  by_cases h3 : heap.data_ok = false
  · rw [if_neg h1, if_neg h2, if_pos h3]; exact Or.inr (Or.inl rfl)
  rw [if_neg h1, if_neg h2, if_neg h3, memcpy_fresh, hsz]
  by_cases hc : len.toNat ≤ content.length
  · rw [if_pos hc]
    exact Or.inr (Or.inr ⟨by omega, h0, by omega, rfl⟩)
  · rw [if_neg hc]
    exact Or.inl rfl

theorem sfs_file_new_defined (ctx : sfs_ctx) (name content : List Char) (len : Int)
    (heap : heap_oracle) (hc : len ≤ content.length) :
    ∃ r, sfs_file_new ctx name content len heap = some r := by
  by_cases hn : ctx.sfs_file_n ≥ MAX_FILE_N
  · exact ⟨_, sfs_file_new_full ctx name content len heap hn⟩
  by_cases hl : len < 0 ∨ len ≥ MAX_FILE_SIZE
  · exact ⟨_, sfs_file_new_bad_len ctx name content len heap hl⟩
  have h0 : 0 ≤ len := by omega
  have h1 : len < MAX_FILE_SIZE := by omega
  have hsz : to_size_t len = len.toNat :=
    to_size_t_of_nonneg len h0 (by unfold MAX_FILE_SIZE at h1; omega)
  have hk : len.toNat ≤ content.length := by omega
  unfold sfs_file_new
  rw [if_neg hn, if_neg hl]
  simp only []
  by_cases h1 : heap.file_ok = false
  · rw [if_pos h1]; exact ⟨_, rfl⟩
  by_cases h2 : heap.name_ok = false
  · rw [if_neg h1, if_pos h2]; exact ⟨_, rfl⟩
  by_cases h3 : heap.data_ok = false
  · rw [if_neg h1, if_neg h2, if_pos h3]; exact ⟨_, rfl⟩
  rw [if_neg h1, if_neg h2, if_neg h3, memcpy_fresh, hsz, if_pos hk]
  exact ⟨_, rfl⟩

theorem sfs_file_new_seq_count (calls : List new_call) (ctx ctx' : sfs_ctx)
    (h0 : 0 ≤ ctx.sfs_file_n) (h1 : ctx.sfs_file_n ≤ MAX_FILE_N)
    (hrun : sfs_file_new_seq ctx calls = some ctx') :
    0 ≤ ctx'.sfs_file_n ∧ ctx'.sfs_file_n ≤ MAX_FILE_N := by
  induction calls generalizing ctx with
  | nil =>
    simp only [sfs_file_new_seq, Option.some.injEq] at hrun
    subst hrun
    exact ⟨h0, h1⟩
  | cons c cs ih =>
    unfold sfs_file_new_seq at hrun
    rcases sfs_file_new_cases ctx c.name c.content c.len c.heap with hu | hf | ⟨hn, _, _, hs⟩
    · rw [hu] at hrun; simp at hrun
    · rw [hf] at hrun; exact ih ctx h0 h1 hrun
    · rw [hs] at hrun
      exact ih _ (by simp only []; omega) (by simp only []; omega) hrun

theorem sfs_file_new_seq_defined (calls : List new_call) (ctx : sfs_ctx)
    (hc : ∀ c ∈ calls, c.len ≤ c.content.length) :
    ∃ ctx', sfs_file_new_seq ctx calls = some ctx' := by
  induction calls generalizing ctx with
  | nil => exact ⟨ctx, rfl⟩
  | cons c cs ih =>
    obtain ⟨r, hr⟩ := sfs_file_new_defined ctx c.name c.content c.len c.heap
      (hc c (List.mem_cons_self c cs))
    unfold sfs_file_new_seq
    rw [hr]
    exact ih r.2 (fun d hd => hc d (List.mem_cons_of_mem c hd))

/-! ## The claims on create and lookup -/

/-- C6: from an initialised table, every run of `sfs_file_new` calls leaves the file count
between 0 and `MAX_FILE_N`; the run is defined whenever each call's content holds at least
`len` bytes; and on any table whose count equals `MAX_FILE_N` a call of `sfs_file_new`
returns -1 and leaves the table, so also the count, unchanged. -/
theorem sfs_file_new_capacity_invariant (calls : List new_call) (ctx0 : sfs_ctx) :
    (∀ ctx', sfs_file_new_seq (init_ctx ctx0) calls = some ctx' →
        0 ≤ ctx'.sfs_file_n ∧ ctx'.sfs_file_n ≤ MAX_FILE_N) ∧
    ((∀ c ∈ calls, c.len ≤ c.content.length) →
        ∃ ctx', sfs_file_new_seq (init_ctx ctx0) calls = some ctx' ∧
          ctx'.sfs_file_n ≤ MAX_FILE_N) ∧
    (∀ (ctx : sfs_ctx) (name content : List Char) (len : Int) (heap : heap_oracle),
        ctx.sfs_file_n = MAX_FILE_N →
          sfs_file_new ctx name content len heap = some (-1, ctx)) := by
  have hinit0 : 0 ≤ (init_ctx ctx0).sfs_file_n := by simp [init_ctx]
  have hinit1 : (init_ctx ctx0).sfs_file_n ≤ MAX_FILE_N := by simp [init_ctx, MAX_FILE_N]
  refine ⟨fun ctx' hrun => sfs_file_new_seq_count calls _ ctx' hinit0 hinit1 hrun, ?_, ?_⟩
  · intro hc
    obtain ⟨ctx', hrun⟩ := sfs_file_new_seq_defined calls (init_ctx ctx0) hc
    exact ⟨ctx', hrun, (sfs_file_new_seq_count calls _ ctx' hinit0 hinit1 hrun).2⟩
  · intro ctx name content len heap hfull
    exact sfs_file_new_full ctx name content len heap (by omega)

theorem sfs_file_new_capacity_invariant_witness :
    sfs_file_new_seq (init_ctx ctx_zero) eleven_creates = some ten_files ∧
    (0 ≤ ten_files.sfs_file_n ∧ ten_files.sfs_file_n ≤ MAX_FILE_N) ∧
    sfs_file_new ten_files "g".toList "y".toList 1 heap_ok = some (-1, ten_files) :=
  ⟨by decide,
   (sfs_file_new_capacity_invariant eleven_creates ctx_zero).1 ten_files (by decide),
   (sfs_file_new_capacity_invariant eleven_creates ctx_zero).2.2 ten_files
     "g".toList "y".toList 1 heap_ok (by decide)⟩

/-- C7: on a table holding fewer than `MAX_FILE_N` files, with every allocation succeeding
and `content` holding at least `len` bytes when `len` is in range, `sfs_file_new` returns 0
exactly when `0 ≤ len < MAX_FILE_SIZE`, and otherwise returns -1; so it fails for
`len = 1024` and succeeds for `len = 1023`. -/
theorem sfs_file_new_size_boundary (ctx : sfs_ctx) (name content : List Char) (len : Int)
    (hn : ctx.sfs_file_n < MAX_FILE_N)
    (hc : 0 ≤ len → len < MAX_FILE_SIZE → len ≤ content.length) :
    ((∃ ctx', sfs_file_new ctx name content len heap_ok = some (0, ctx')) ↔
        (0 ≤ len ∧ len < MAX_FILE_SIZE)) ∧
    (¬ (0 ≤ len ∧ len < MAX_FILE_SIZE) →
        sfs_file_new ctx name content len heap_ok = some (-1, ctx)) := by
  have hfail : ¬ (0 ≤ len ∧ len < MAX_FILE_SIZE) →
      sfs_file_new ctx name content len heap_ok = some (-1, ctx) := fun hbad =>
    sfs_file_new_bad_len ctx name content len heap_ok (by omega)
  refine ⟨⟨?_, ?_⟩, hfail⟩
  · rintro ⟨ctx', hok⟩
    by_contra hbad
    rw [hfail hbad] at hok
    simp at hok
  · rintro ⟨h0, h1⟩
    exact ⟨_, sfs_file_new_ok ctx name content len hn h0 h1 (hc h0 h1)⟩

theorem sfs_file_new_size_boundary_witness :
    (∃ ctx', sfs_file_new (init_ctx ctx_zero) "f".toList (List.replicate 1023 'a') 1023 heap_ok
        = some (0, ctx')) ∧
    sfs_file_new (init_ctx ctx_zero) "f".toList (List.replicate 1023 'a') 1024 heap_ok
        = some (-1, init_ctx ctx_zero) :=
  ⟨(sfs_file_new_size_boundary (init_ctx ctx_zero) "f".toList (List.replicate 1023 'a') 1023
      (by decide) (fun _ _ => by rw [List.length_replicate]; decide)).1.mpr ⟨by decide, by decide⟩,
   (sfs_file_new_size_boundary (init_ctx ctx_zero) "f".toList (List.replicate 1023 'a') 1024
      (by decide) (fun _ h => absurd h (by decide))).2 (by decide)⟩

/-- C8: when the table is full (`count ≥ MAX_FILE_N`) or `len` is negative or at least
`MAX_FILE_SIZE`, `sfs_file_new` returns -1 and the table after the call is the table before
it: same records in the same order, same count. -/
theorem sfs_file_new_failure_leaves_table (ctx : sfs_ctx) (name content : List Char)
    (len : Int) (heap : heap_oracle)
    (h : ctx.sfs_file_n ≥ MAX_FILE_N ∨ len < 0 ∨ len ≥ MAX_FILE_SIZE) :
    sfs_file_new ctx name content len heap = some (-1, ctx) := by
  rcases h with h | h
  · exact sfs_file_new_full ctx name content len heap h
  · exact sfs_file_new_bad_len ctx name content len heap h

theorem sfs_file_new_failure_leaves_table_witness :
    sfs_file_new ten_files "g".toList "y".toList 1 heap_ok = some (-1, ten_files) ∧
    sfs_file_new foo_bar_foo "g".toList "y".toList (-1) heap_ok = some (-1, foo_bar_foo) ∧
    sfs_file_new foo_bar_foo "g".toList "y".toList 1024 heap_ok = some (-1, foo_bar_foo) :=
  ⟨sfs_file_new_failure_leaves_table ten_files _ _ 1 heap_ok (Or.inl (by decide)),
   sfs_file_new_failure_leaves_table foo_bar_foo _ _ (-1) heap_ok (Or.inr (Or.inl (by decide))),
   sfs_file_new_failure_leaves_table foo_bar_foo _ _ 1024 heap_ok
     (Or.inr (Or.inr (by decide)))⟩

/-- C9: on a table with `count < MAX_FILE_N`, for `0 ≤ len < MAX_FILE_SIZE` and `content`
holding at least `len` bytes, there is a record `file` such that: when every allocation
succeeds `sfs_file_new` returns 0 and the new table is the old list of records with `file`
put in front, the count one larger; whatever the allocator answers, a call that returns 0
leaves exactly that table.  The name of `file` is `name` without its first character when
that is '/', and `name` itself otherwise; its data are the first `len` bytes of `content`,
`len` bytes in all; its size is `len`. -/
theorem sfs_file_new_success_prepends (ctx : sfs_ctx) (name content : List Char) (len : Int)
    (heap : heap_oracle)
    (hn : ctx.sfs_file_n < MAX_FILE_N) (h0 : 0 ≤ len) (h1 : len < MAX_FILE_SIZE)
    (hc : len ≤ content.length) :
    ∃ file : sfs_file,
      (heap = heap_ok →
        sfs_file_new ctx name content len heap
          = some (0, { sfs_files := file :: ctx.sfs_files,
                       sfs_file_n := ctx.sfs_file_n + 1 })) ∧
      (∀ ctx', sfs_file_new ctx name content len heap = some (0, ctx') →
        ctx' = { sfs_files := file :: ctx.sfs_files, sfs_file_n := ctx.sfs_file_n + 1 }) ∧
      (∀ rest, name = '/' :: rest → file.sfs_name = rest) ∧
      (name.head? ≠ some '/' → file.sfs_name = name) ∧
      file.sfs_data = content.take len.toNat ∧
      (file.sfs_data.length : Int) = len ∧
      file.sfs_size = len := by
  refine ⟨{ sfs_name := skip_slash name, sfs_data := content.take len.toNat, sfs_size := len },
    ?_, ?_, ?_, ?_, rfl, ?_, rfl⟩
  · intro hheap
    rw [hheap]
    exact sfs_file_new_ok ctx name content len hn h0 h1 hc
  · intro ctx' hret
    rcases sfs_file_new_cases ctx name content len heap with hu | hf | ⟨_, _, _, hs⟩
    · rw [hu] at hret; simp at hret
    · rw [hf] at hret; simp at hret
    · rw [hs] at hret
      simp only [Option.some.injEq, Prod.mk.injEq, true_and] at hret
      exact hret.symm
  · intro rest hrest
    simp only [hrest, skip_slash_cons_slash]
  · intro hno
    exact skip_slash_of_no_slash name hno
  · simp only [List.length_take]
    omega

theorem sfs_file_new_success_prepends_witness :
    ∃ file : sfs_file,
      sfs_file_new foo_bar_foo "/hello".toList hello_world 13 heap_ok
        = some (0, { sfs_files := file :: foo_bar_foo.sfs_files,
                     sfs_file_n := foo_bar_foo.sfs_file_n + 1 }) ∧
      file.sfs_name = "hello".toList ∧ file.sfs_data = hello_world ∧ file.sfs_size = 13 :=
  (sfs_file_new_success_prepends foo_bar_foo "/hello".toList hello_world 13 heap_ok
      (by decide) (by decide) (by decide) (by decide)).imp
    (fun _ h => ⟨h.1 rfl, h.2.2.1 "hello".toList rfl, h.2.2.2.2.1.trans (by decide),
      h.2.2.2.2.2.2⟩)

/-- C10: for a name `n` that does not begin with '/', `sfs_file_lookup` gives the same result
for '/' followed by `n` as for `n`, and leaves the table unchanged; the result is position
`i` exactly when the record at position `i` has name `n` and no record before it has; and
the result is `NULL` exactly when no record of the table has name `n`. -/
theorem sfs_file_lookup_first_match (ctx : sfs_ctx) (n : List Char)
    (hn : n.head? ≠ some '/') :
    sfs_file_lookup ctx ('/' :: n) = sfs_file_lookup ctx n ∧
    (sfs_file_lookup ctx n).2 = ctx ∧
    (∀ i, (sfs_file_lookup ctx n).1 = some i ↔
      (∃ r, ctx.sfs_files[i]? = some r ∧ r.sfs_name = n) ∧
        ∀ j, j < i → ∀ r, ctx.sfs_files[j]? = some r → r.sfs_name ≠ n) ∧
    ((sfs_file_lookup ctx n).1 = none ↔ ∀ r ∈ ctx.sfs_files, r.sfs_name ≠ n) := by
  unfold sfs_file_lookup
  simp only [skip_slash_cons_slash, skip_slash_of_no_slash n hn]
  exact ⟨trivial, trivial, fun i => lookup_loop_eq_some n ctx.sfs_files i,
    lookup_loop_eq_none n ctx.sfs_files 0⟩

theorem sfs_file_lookup_first_match_witness :
    sfs_file_lookup foo_bar_foo "/foo".toList = sfs_file_lookup foo_bar_foo "foo".toList ∧
    sfs_file_lookup foo_bar_foo "foo".toList = (some 0, foo_bar_foo) ∧
    ((sfs_file_lookup foo_bar_foo "missing".toList).1 = none ↔
      ∀ r ∈ foo_bar_foo.sfs_files, r.sfs_name ≠ "missing".toList) :=
  ⟨(sfs_file_lookup_first_match foo_bar_foo "foo".toList (by decide)).1,
   by decide,
   (sfs_file_lookup_first_match foo_bar_foo "missing".toList (by decide)).2.2.2⟩

/-! ## Frame of a write, teardown, and the invariant of runs -/

theorem memcpy_length (dst : List Char) (doff : Int) (src : List Char) (soff : Int) (n : Nat)
    (d : List Char) (h : memcpy dst doff src soff n = some d) : d.length = dst.length := by
  unfold memcpy at h
  split at h
  · rename_i hb
    simp only [Option.some.injEq] at h
    subst h
    simp only [List.length_append, List.length_take, List.length_drop]
    omega
  · simp at h

theorem sfs_file_write_some (file : sfs_file) (buf : List Char) (size : Nat) (offset : Int)
    (ret : Int) (file' : sfs_file) (h : sfs_file_write file buf size offset = some (ret, file')) :
    file'.sfs_name = file.sfs_name ∧ file'.sfs_size = file.sfs_size ∧
      file'.sfs_data.length = file.sfs_data.length := by
  unfold sfs_file_write at h
  simp only [] at h
  split at h
  · simp only [Option.some.injEq, Prod.mk.injEq] at h
    rw [← h.2]
    exact ⟨rfl, rfl, rfl⟩
  · split at h
    · simp at h
    · rename_i data hm
      simp only [Option.some.injEq, Prod.mk.injEq] at h
      rw [← h.2]
      exact ⟨rfl, rfl, memcpy_length _ _ _ _ _ _ hm⟩

theorem sfs_file_write_at_some (ctx : sfs_ctx) (pos : Nat) (buf : List Char) (size : Nat)
    (offset : Int) (ret : Int) (ctx' : sfs_ctx)
    (h : sfs_file_write_at ctx pos buf size offset = some (ret, ctx')) :
    ∃ file file', ctx.sfs_files[pos]? = some file ∧
      sfs_file_write file buf size offset = some (ret, file') ∧
      ctx' = { ctx with sfs_files := ctx.sfs_files.set pos file' } := by
  unfold sfs_file_write_at at h
  split at h
  · simp at h
  · rename_i file hf
    split at h
    · simp at h
    · rename_i r file' hw
      simp only [Option.some.injEq, Prod.mk.injEq] at h
      exact ⟨file, file', hf, by rw [hw, h.1], h.2.symm⟩

theorem destroy_loop_eq (files : List sfs_file) (n : Int) :
    destroy_loop files n = { sfs_files := [], sfs_file_n := n - files.length } := by
  induction files generalizing n with
  | nil => simp [destroy_loop]
  | cons f rest ih =>
    unfold destroy_loop
    rw [ih]
    simp only [List.length_cons, Nat.cast_add, Nat.cast_one, sfs_ctx.mk.injEq, true_and]
    omega

/-- A call of `sfs_file_new` that returns: either -1 with the table unchanged, or 0 with the
arguments in range and one record added at the head. -/
theorem sfs_file_new_some (ctx : sfs_ctx) (name content : List Char) (len : Int)
    (heap : heap_oracle) (ret : Int) (ctx' : sfs_ctx)
    (h : sfs_file_new ctx name content len heap = some (ret, ctx')) :
    (ret = -1 ∧ ctx' = ctx) ∨
    (ret = 0 ∧ ctx.sfs_file_n < MAX_FILE_N ∧ 0 ≤ len ∧ len < MAX_FILE_SIZE ∧
      len ≤ content.length ∧
      ctx' = { sfs_files := { sfs_name := skip_slash name,
                              sfs_data := content.take len.toNat,
                              sfs_size := len } :: ctx.sfs_files,
               sfs_file_n := ctx.sfs_file_n + 1 }) := by
  rcases sfs_file_new_cases ctx name content len heap with hu | hf | ⟨hn, h0, h1, hs⟩
  · rw [hu] at h; simp at h
  · rw [hf] at h
    simp only [Option.some.injEq, Prod.mk.injEq] at h
    exact Or.inl ⟨h.1.symm, h.2.symm⟩
  · by_cases hc : len ≤ content.length
    · rw [hs] at h
      simp only [Option.some.injEq, Prod.mk.injEq] at h
      exact Or.inr ⟨h.1.symm, hn, h0, h1, hc, h.2.symm⟩
    · exfalso
      have hsz : to_size_t len = len.toNat :=
        to_size_t_of_nonneg len h0 (by unfold MAX_FILE_SIZE at h1; omega)
      have hk : ¬ len.toNat ≤ content.length := by omega
      have hm : memcpy (List.replicate (to_size_t len) '\x00') 0 content 0 (to_size_t len)
          = none := by
        rw [memcpy_fresh, hsz, if_neg hk]
      unfold sfs_file_new at hs
      rw [if_neg (by omega), if_neg (by omega)] at hs
      simp only [hm] at hs
      split at hs
      · simp at hs
      · split at hs
        · simp at hs
        · split at hs <;> simp at hs

theorem table_ok_sfs_file_new (ctx : sfs_ctx) (name content : List Char) (len : Int)
    (heap : heap_oracle) (ret : Int) (ctx' : sfs_ctx) (hok : table_ok ctx)
    (h : sfs_file_new ctx name content len heap = some (ret, ctx')) : table_ok ctx' := by
  rcases sfs_file_new_some ctx name content len heap ret ctx' h with
    ⟨_, he⟩ | ⟨_, _, h0, h1, hc, he⟩
  · rw [he]; exact hok
  · rw [he]
    refine ⟨?_, ?_⟩
    · simp only [List.length_cons, Nat.cast_add, Nat.cast_one]
      rw [hok.1]
    · intro file hfile
      rcases List.mem_cons.mp hfile with hnew | hold
      · rw [hnew]
        refine ⟨h0, by simp only []; omega, ?_⟩
        simp only [List.length_take]
        omega
      · exact hok.2 file hold

theorem table_ok_sfs_file_write_at (ctx : sfs_ctx) (pos : Nat) (buf : List Char) (size : Nat)
    (offset : Int) (ret : Int) (ctx' : sfs_ctx) (hok : table_ok ctx)
    (h : sfs_file_write_at ctx pos buf size offset = some (ret, ctx')) : table_ok ctx' := by
  obtain ⟨file, file', hf, hw, he⟩ := sfs_file_write_at_some ctx pos buf size offset ret ctx' h
  obtain ⟨_, hsize, hlen⟩ := sfs_file_write_some file buf size offset ret file' hw
  have hfile : record_ok file := hok.2 file (List.getElem?_mem hf)
  rw [he]
  refine ⟨?_, ?_⟩
  · simp only [List.length_set]
    exact hok.1
  · intro g hg
    rcases List.mem_or_eq_of_mem_set hg with hold | hnew
    · exact hok.2 g hold
    · rw [hnew]
      unfold record_ok at hfile ⊢
      rw [hsize, hlen]
      exact hfile

theorem table_ok_simplefs_create (ctx : sfs_ctx) (name : List Char) (heap : heap_oracle)
    (ret : Int) (ctx' : sfs_ctx) (hok : table_ok ctx)
    (h : simplefs_create ctx name heap = some (ret, ctx')) : table_ok ctx' := by
  unfold simplefs_create at h
  split at h
  · simp only [Option.some.injEq, Prod.mk.injEq] at h
    rw [← h.2]; exact hok
  · split at h
    · simp at h
    · rename_i r c hnew
      have hc : table_ok c := table_ok_sfs_file_new ctx name _ 1 heap r c hok hnew
      split at h
      · simp only [Option.some.injEq, Prod.mk.injEq] at h
        rw [← h.2]; exact hc
      · simp only [Option.some.injEq, Prod.mk.injEq] at h
        rw [← h.2]; exact hc

theorem table_ok_simplefs_write (ctx : sfs_ctx) (name buf : List Char) (size : Nat)
    (offset : Int) (ret : Int) (ctx' : sfs_ctx) (hok : table_ok ctx)
    (h : simplefs_write ctx name buf size offset = some (ret, ctx')) : table_ok ctx' := by
  unfold simplefs_write at h
  split at h
  · simp only [Option.some.injEq, Prod.mk.injEq] at h
    rw [← h.2]; exact hok
  · exact table_ok_sfs_file_write_at ctx _ buf size offset ret ctx' hok h

theorem table_ok_destroy_ctx (ctx : sfs_ctx) (hok : table_ok ctx) :
    destroy_ctx ctx = { sfs_files := [], sfs_file_n := 0 } := by
  unfold destroy_ctx
  rw [destroy_loop_eq, hok.1]
  simp

theorem table_ok_init_ctx (ctx0 : sfs_ctx) : table_ok (init_ctx ctx0) := by
  unfold table_ok init_ctx
  simp

theorem table_ok_sfs_step (ctx : sfs_ctx) (op : sfs_op) (ctx' : sfs_ctx) (hok : table_ok ctx)
    (h : sfs_step ctx op = some ctx') : table_ok ctx' := by
  cases op with
  | file_new c =>
    simp only [sfs_step, Option.map_eq_some', Prod.exists, exists_eq_right] at h
    obtain ⟨ret, hr⟩ := h
    exact table_ok_sfs_file_new ctx _ _ _ _ ret ctx' hok hr
  | file_write pos buf size offset =>
    simp only [sfs_step, Option.map_eq_some', Prod.exists, exists_eq_right] at h
    obtain ⟨ret, hr⟩ := h
    exact table_ok_sfs_file_write_at ctx pos buf size offset ret ctx' hok hr
  | create name heap =>
    simp only [sfs_step, Option.map_eq_some', Prod.exists, exists_eq_right] at h
    obtain ⟨ret, hr⟩ := h
    exact table_ok_simplefs_create ctx name heap ret ctx' hok hr
  | write name buf size offset =>
    simp only [sfs_step, Option.map_eq_some', Prod.exists, exists_eq_right] at h
    obtain ⟨ret, hr⟩ := h
    exact table_ok_simplefs_write ctx name buf size offset ret ctx' hok hr
  | destroy =>
    simp only [sfs_step, Option.some.injEq] at h
    rw [← h, table_ok_destroy_ctx ctx hok]
    exact table_ok_init_ctx ctx

theorem table_ok_sfs_run (ops : List sfs_op) (ctx ctx' : sfs_ctx) (hok : table_ok ctx)
    (h : sfs_run ctx ops = some ctx') : table_ok ctx' := by
  induction ops generalizing ctx with
  | nil =>
    simp only [sfs_run, Option.some.injEq] at h
    rw [← h]; exact hok
  | cons op ops ih =>
    unfold sfs_run at h
    split at h
    · simp at h
    · rename_i c hc
      exact ih c (table_ok_sfs_step ctx op c hok hc) h

/-! ## Names in the table after a run of creates -/

theorem sfs_file_new_seq_names_nodup (calls : List new_call) (ctx ctx' : sfs_ctx)
    (hctx : (ctx.sfs_files.map sfs_file.sfs_name).Nodup)
    (hcalls : (calls.map (fun c => skip_slash c.name)).Nodup)
    (hdisj : ∀ c ∈ calls, skip_slash c.name ∉ ctx.sfs_files.map sfs_file.sfs_name)
    (h : sfs_file_new_seq ctx calls = some ctx') :
    (ctx'.sfs_files.map sfs_file.sfs_name).Nodup := by
  induction calls generalizing ctx with
  | nil =>
    simp only [sfs_file_new_seq, Option.some.injEq] at h
    rw [← h]; exact hctx
  | cons c cs ih =>
    unfold sfs_file_new_seq at h
    rw [List.map_cons, List.nodup_cons] at hcalls
    have hrest : ∀ d ∈ cs, skip_slash d.name ∉ ctx.sfs_files.map sfs_file.sfs_name :=
      fun d hd => hdisj d (List.mem_cons_of_mem c hd)
    split at h
    · simp at h
    · rename_i ret c1 hnew
      rcases sfs_file_new_some ctx c.name c.content c.len c.heap ret c1 hnew with
        ⟨_, he⟩ | ⟨_, _, _, _, _, he⟩
      · rw [he] at h
        exact ih ctx hctx hcalls.2 hrest h
      · refine ih c1 ?_ hcalls.2 ?_ h
        · rw [he]
          simp only [List.map_cons, List.nodup_cons]
          exact ⟨hdisj c (List.mem_cons_self c cs), hctx⟩
        · intro d hd
          rw [he]
          simp only [List.map_cons, List.mem_cons, not_or]
          refine ⟨fun heq => hcalls.1 ?_, hrest d hd⟩
          rw [← heq]
          exact List.mem_map.mpr ⟨d, hd, rfl⟩

/-- C11, as the code has it: after `sfs_file_new ("//foo", "x", 1)` on an initialised table,
which returns 0, the lookup of `/foo` (the name without its leading '/') returns `NULL`. -/
theorem sfs_file_new_double_slash_lookup_null :
    sfs_file_new (init_ctx ctx_zero) "//foo".toList "x".toList 1 heap_ok
      = some (0, slash_foo_table) ∧
    (sfs_file_lookup slash_foo_table "/foo".toList).1 = none := by
  decide

/-- C11, amended: whenever `sfs_file_new (name, content, len)` returns 0, the record at the
head of the new table has the normalised name, the first `len` bytes of `content` as data
and size `len`, whatever records the table held before; a following `sfs_file_lookup` returns
that record (position 0) for `name` as it was passed and for '/' followed by the normalised
name, and for the normalised name itself when that does not begin with '/'. -/
theorem sfs_file_new_then_lookup (ctx : sfs_ctx) (name content : List Char) (len : Int)
    (heap : heap_oracle) (ctx' : sfs_ctx)
    (h : sfs_file_new ctx name content len heap = some (0, ctx')) :
    ctx'.sfs_files[0]? = some { sfs_name := skip_slash name,
                                sfs_data := content.take len.toNat,
                                sfs_size := len } ∧
    ((content.take len.toNat).length : Int) = len ∧
    sfs_file_lookup ctx' name = (some 0, ctx') ∧
    sfs_file_lookup ctx' ('/' :: skip_slash name) = (some 0, ctx') ∧
    ((skip_slash name).head? ≠ some '/' →
      sfs_file_lookup ctx' (skip_slash name) = (some 0, ctx')) := by
  rcases sfs_file_new_some ctx name content len heap 0 ctx' h with
    ⟨h0, _⟩ | ⟨_, _, h0, _, hc, he⟩
  · exact absurd h0 (by decide)
  · rw [he]
    refine ⟨by simp, ?_, ?_, ?_, ?_⟩
    · simp only [List.length_take]
      omega
    · simp [sfs_file_lookup, lookup_loop]
    · simp [sfs_file_lookup, lookup_loop, skip_slash_cons_slash]
    · intro hno
      simp [sfs_file_lookup, lookup_loop, skip_slash_of_no_slash _ hno]

theorem sfs_file_new_then_lookup_witness :
    sfs_file_lookup
      { sfs_files := { sfs_name := "foo".toList, sfs_data := "newer".toList, sfs_size := 5 }
          :: foo_bar_foo.sfs_files,
        sfs_file_n := 4 } "foo".toList
      = (some 0,
         { sfs_files := { sfs_name := "foo".toList, sfs_data := "newer".toList, sfs_size := 5 }
             :: foo_bar_foo.sfs_files,
           sfs_file_n := 4 }) :=
  (sfs_file_new_then_lookup foo_bar_foo "/foo".toList "newer".toList 5 heap_ok _
    (by decide)).2.2.2.2 (by decide)

/-- C14, as the code has it: two calls `sfs_file_new ("foo", "x", 1)` on an initialised
table both succeed and leave two records named `foo`. -/
theorem sfs_file_new_twice_same_name :
    sfs_file_new_seq (init_ctx ctx_zero) foo_twice = some foo_twice_table ∧
    foo_twice_table.sfs_files.map sfs_file.sfs_name = ["foo".toList, "foo".toList] ∧
    ¬ (foo_twice_table.sfs_files.map sfs_file.sfs_name).Nodup := by
  decide

/-- C14, amended: in every table reached from `init_ctx` by a run of `sfs_file_new` calls
whose normalised names are pairwise distinct, no two records have the same name. -/
theorem sfs_file_new_distinct_names_unique (calls : List new_call) (ctx0 ctx : sfs_ctx)
    (hcalls : (calls.map (fun c => skip_slash c.name)).Nodup)
    (h : sfs_file_new_seq (init_ctx ctx0) calls = some ctx) :
    (ctx.sfs_files.map sfs_file.sfs_name).Nodup :=
  sfs_file_new_seq_names_nodup calls (init_ctx ctx0) ctx (by simp [init_ctx]) hcalls
    (by simp [init_ctx]) h

theorem sfs_file_new_distinct_names_unique_witness :
    sfs_file_new_seq (init_ctx ctx_zero) foo_then_bar = some bar_foo_table ∧
    (bar_foo_table.sfs_files.map sfs_file.sfs_name).Nodup :=
  ⟨by decide,
   sfs_file_new_distinct_names_unique foo_then_bar ctx_zero bar_foo_table
     (by decide) (by decide)⟩

theorem readdir_loop_eq (files : List sfs_file) (buf : List (List Char)) :
    readdir_loop files buf = buf ++ files.map sfs_file.sfs_name := by
  induction files generalizing buf with
  | nil => simp [readdir_loop]
  | cons f rest ih =>
    unfold readdir_loop
    rw [ih]
    simp

theorem lookup_loop_names (n : List Char) (files files' : List sfs_file) (pos : Nat)
    (h : files.map sfs_file.sfs_name = files'.map sfs_file.sfs_name) :
    lookup_loop n files pos = lookup_loop n files' pos := by
  induction files generalizing files' pos with
  | nil =>
    cases files' with
    | nil => rfl
    | cons g rest' => simp at h
  | cons f rest ih =>
    cases files' with
    | nil => simp at h
    | cons g rest' =>
      simp only [List.map_cons, List.cons.injEq] at h
      unfold lookup_loop
      rw [h.1, ih rest' (pos + 1) h.2]

theorem map_set_same {β : Type} (g : sfs_file → β) (files : List sfs_file) (pos : Nat)
    (file file' : sfs_file) (hf : files[pos]? = some file) (hg : g file' = g file) :
    (files.set pos file').map g = files.map g := by
  induction files generalizing pos with
  | nil => simp
  | cons f rest ih =>
    cases pos with
    | zero =>
      simp only [List.getElem?_cons_zero, Option.some.injEq] at hf
      simp [hg, hf]
    | succ k =>
      simp only [List.getElem?_cons_succ] at hf
      simp [ih k hf]

theorem to_size_t_of_neg (x : Int) (h0 : x < 0) (h1 : -2 ^ 63 ≤ x) :
    to_size_t x = (x + 2 ^ 64).toNat := by
  unfold to_size_t
  have e : x % (2 ^ 64 : Int) = x + 2 ^ 64 := by omega
  rw [e]

/-- C15: the listing of the root is "." and ".." followed by the name of each record of the
table, once per record and in table order; after a call of `sfs_file_new` that returns 0 it
is "." and ".." followed by the normalised new name and then the names listed before. -/
theorem simplefs_readdir_lists_table (ctx : sfs_ctx) (buf : List (List Char)) :
    simplefs_readdir ctx root_path buf
      = (0, buf ++ [dot_entry, dotdot_entry] ++ ctx.sfs_files.map sfs_file.sfs_name) ∧
    ∀ (name content : List Char) (len : Int) (heap : heap_oracle) (ctx' : sfs_ctx),
      sfs_file_new ctx name content len heap = some (0, ctx') →
        ctx'.sfs_files.map sfs_file.sfs_name
          = skip_slash name :: ctx.sfs_files.map sfs_file.sfs_name ∧
        simplefs_readdir ctx' root_path buf
          = (0, buf ++ [dot_entry, dotdot_entry]
                ++ (skip_slash name :: ctx.sfs_files.map sfs_file.sfs_name)) := by
  have hlist : ∀ c : sfs_ctx, simplefs_readdir c root_path buf
      = (0, buf ++ [dot_entry, dotdot_entry] ++ c.sfs_files.map sfs_file.sfs_name) := by
    intro c
    unfold simplefs_readdir
    rw [if_neg (by simp), readdir_loop_eq]
    simp
  refine ⟨hlist ctx, ?_⟩
  intro name content len heap ctx' hnew
  have hnames : ctx'.sfs_files.map sfs_file.sfs_name
      = skip_slash name :: ctx.sfs_files.map sfs_file.sfs_name := by
    rcases sfs_file_new_some ctx name content len heap 0 ctx' hnew with
      ⟨h0, _⟩ | ⟨_, _, _, _, _, he⟩
    · exact absurd h0 (by decide)
    · rw [he]
      rfl
  exact ⟨hnames, by rw [hlist ctx', hnames]⟩

theorem simplefs_readdir_lists_table_witness :
    simplefs_readdir sample_table root_path []
      = (0, [dot_entry, dotdot_entry, "a".toList, "hello".toList]) ∧
    simplefs_readdir
        { sfs_files := { sfs_name := "b".toList, sfs_data := "x".toList, sfs_size := 1 }
            :: sample_table.sfs_files,
          sfs_file_n := 3 } root_path []
      = (0, [dot_entry, dotdot_entry, "b".toList, "a".toList, "hello".toList]) :=
  ⟨(simplefs_readdir_lists_table sample_table []).1,
   ((simplefs_readdir_lists_table sample_table []).2 "/b".toList "x".toList 1 heap_ok _
      (by decide)).2⟩

/-- In every table reached from `init_ctx` by a run in which each call is defined, every
record has `0 ≤ size ≤ MAX_FILE_SIZE - 1` and a data buffer of exactly `size` bytes; and a
call of `sfs_file_write` that is defined leaves the record's size, and the length of its
buffer, as they were. -/
theorem sfs_run_record_sizes (ops : List sfs_op) (ctx0 ctx : sfs_ctx)
    (h : sfs_run (init_ctx ctx0) ops = some ctx) :
    (∀ file ∈ ctx.sfs_files,
      0 ≤ file.sfs_size ∧ file.sfs_size ≤ MAX_FILE_SIZE - 1 ∧
        (file.sfs_data.length : Int) = file.sfs_size) ∧
    (∀ (file : sfs_file) (buf : List Char) (size : Nat) (offset : Int) (ret : Int)
        (file' : sfs_file),
      sfs_file_write file buf size offset = some (ret, file') →
        file'.sfs_size = file.sfs_size ∧ file'.sfs_data.length = file.sfs_data.length) :=
  ⟨(table_ok_sfs_run ops _ ctx (table_ok_init_ctx ctx0) h).2,
   fun file buf size offset ret file' hw =>
     (sfs_file_write_some file buf size offset ret file' hw).2⟩

theorem sfs_run_record_sizes_witness :
    sfs_run (init_ctx ctx_zero) sample_ops = some sample_table ∧
    ∀ file ∈ sample_table.sfs_files,
      0 ≤ file.sfs_size ∧ file.sfs_size ≤ MAX_FILE_SIZE - 1 ∧
        (file.sfs_data.length : Int) = file.sfs_size :=
  ⟨by decide, (sfs_run_record_sizes sample_ops ctx_zero sample_table (by decide)).1⟩

theorem sfs_file_write_one_byte_past (name buf : List Char) (size : Nat) (offset : Int)
    (h1 : 1 ≤ offset) (hr : offset < 2 ^ 63) :
    sfs_file_write { sfs_name := name, sfs_data := [Char.ofNat 0], sfs_size := 1 }
        buf size offset
      = some (0, { sfs_name := name, sfs_data := [Char.ofNat 0], sfs_size := 1 }) := by
  unfold sfs_file_write
  simp only []
  rw [if_pos (to_size_t_le_of_le 1 offset (by decide) h1 hr)]

/-- C18: `simplefs_create` returns `-ENOSPC` and leaves the table unchanged when the count
is `MAX_FILE_N`; when the count is below `MAX_FILE_N` and every allocation succeeds it
returns 0 and puts in front of the table a record with the normalised name, size 1 and the
single byte 0.  A later `sfs_file_write` to that record at an offset `≥ 1`, directly or
through `simplefs_write` with the same name, returns 0 and changes nothing. -/
theorem simplefs_create_one_byte (ctx : sfs_ctx) (name : List Char) :
    (∀ heap, ctx.sfs_file_n = MAX_FILE_N →
      simplefs_create ctx name heap = some (-ENOSPC, ctx)) ∧
    (ctx.sfs_file_n < MAX_FILE_N →
      ∃ ctx', ctx' = { sfs_files := { sfs_name := skip_slash name,
                                      sfs_data := [Char.ofNat 0],
                                      sfs_size := 1 } :: ctx.sfs_files,
                       sfs_file_n := ctx.sfs_file_n + 1 } ∧
        simplefs_create ctx name heap_ok = some (0, ctx') ∧
        ∀ (buf : List Char) (size : Nat) (offset : Int), 1 ≤ offset → offset < 2 ^ 63 →
          sfs_file_write_at ctx' 0 buf size offset = some (0, ctx') ∧
          simplefs_write ctx' name buf size offset = some (0, ctx')) := by
  refine ⟨?_, ?_⟩
  · intro heap hfull
    unfold simplefs_create
    rw [if_pos (by omega)]
  · intro hn
    refine ⟨_, rfl, ?_, ?_⟩
    · unfold simplefs_create
      rw [if_neg (by omega),
        sfs_file_new_ok ctx name empty_literal 1 hn (by decide) (by decide) (by decide)]
      rfl
    · intro buf size offset h1 hr
      have hw := sfs_file_write_one_byte_past (skip_slash name) buf size offset h1 hr
      have hat : sfs_file_write_at
          { sfs_files := { sfs_name := skip_slash name, sfs_data := [Char.ofNat 0],
                           sfs_size := 1 } :: ctx.sfs_files,
            sfs_file_n := ctx.sfs_file_n + 1 } 0 buf size offset
          = some (0, { sfs_files := { sfs_name := skip_slash name,
                                      sfs_data := [Char.ofNat 0],
                                      sfs_size := 1 } :: ctx.sfs_files,
                       sfs_file_n := ctx.sfs_file_n + 1 }) := by
        unfold sfs_file_write_at
        simp only [List.getElem?_cons_zero, hw, List.set_cons_zero]
      refine ⟨hat, ?_⟩
      unfold simplefs_write
      simp only [sfs_file_lookup, lookup_loop, if_true]
      exact hat

theorem simplefs_create_one_byte_witness :
    simplefs_create ten_files "/g".toList heap_ok = some (-ENOSPC, ten_files) ∧
    (∃ ctx', ctx' = { sfs_files := { sfs_name := "g".toList, sfs_data := [Char.ofNat 0],
                                     sfs_size := 1 } :: sample_table.sfs_files,
                      sfs_file_n := sample_table.sfs_file_n + 1 } ∧
        simplefs_create sample_table "/g".toList heap_ok = some (0, ctx') ∧
        sfs_file_write_at ctx' 0 "data".toList 4 1 = some (0, ctx')) :=
  ⟨(simplefs_create_one_byte ten_files "/g".toList).1 heap_ok (by decide),
   ((simplefs_create_one_byte sample_table "/g".toList).2 (by decide)).imp
     (fun _ h => ⟨h.1, h.2.1, (h.2.2 "data".toList 4 1 (by decide) (by decide)).1⟩)⟩

/-- C19: for a record of size `S` with `0 ≤ S < MAX_FILE_SIZE` and a negative offset (within
`off_t`), `sfs_file_read` and `sfs_file_write` return 0 and copy nothing, whatever size is
requested: as a `size_t` the offset is `offset + 2 ^ 64`, which is not below `S`. -/
theorem sfs_file_read_write_negative_offset (file : sfs_file) (buf : List Char) (size : Nat)
    (offset : Int) (hS0 : 0 ≤ file.sfs_size) (hS1 : file.sfs_size < MAX_FILE_SIZE)
    (hneg : offset < 0) (hmin : -2 ^ 63 ≤ offset) :
    to_size_t offset = (offset + 2 ^ 64).toNat ∧
    to_size_t offset ≥ to_size_t file.sfs_size ∧
    sfs_file_read file buf size offset = some (0, buf) ∧
    sfs_file_write file buf size offset = some (0, file) := by
  have ho := to_size_t_of_neg offset hneg hmin
  have hs := to_size_t_of_nonneg file.sfs_size hS0 (by unfold MAX_FILE_SIZE at hS1; omega)
  have hge : to_size_t offset ≥ to_size_t file.sfs_size := by
    rw [ho, hs]
    unfold MAX_FILE_SIZE at hS1
    omega
  refine ⟨ho, hge, ?_, ?_⟩
  · unfold sfs_file_read
    simp only []
    rw [if_pos hge]
  · unfold sfs_file_write
    simp only []
    rw [if_pos hge]

theorem sfs_file_read_write_negative_offset_witness :
    sfs_file_read hello_file (List.replicate 5 'z') 5 (-1) = some (0, List.replicate 5 'z') ∧
    sfs_file_write hello_file "HELLO".toList 5 (-1) = some (0, hello_file) :=
  ⟨(sfs_file_read_write_negative_offset hello_file (List.replicate 5 'z') 5 (-1)
      (by decide) (by decide) (by decide) (by decide)).2.2.1,
   (sfs_file_read_write_negative_offset hello_file "HELLO".toList 5 (-1)
      (by decide) (by decide) (by decide) (by decide)).2.2.2⟩

/-- A write to a record whose buffer holds `sfs_size` bytes is defined when the offset is at
or past the end, and when it is before the end, the requested size does not exceed the bytes
left and the caller's buffer holds at least the bytes left. -/
theorem sfs_file_write_defined (file : sfs_file) (buf : List Char) (size : Nat) (offset : Int)
    (hok : record_ok file)
    (hin : (file.sfs_size ≤ offset ∧ offset < 2 ^ 63) ∨
      (0 ≤ offset ∧ offset < file.sfs_size ∧ (size : Int) ≤ file.sfs_size - offset ∧
        file.sfs_size - offset ≤ buf.length)) :
    ∃ r, sfs_file_write file buf size offset = some r := by
  obtain ⟨hS0, hS1, hlen⟩ := hok
  unfold MAX_FILE_SIZE at hS1
  rcases hin with ⟨ho, hr⟩ | ⟨ho, hlt, hsz, hbuf⟩
  · refine ⟨(0, file), ?_⟩
    unfold sfs_file_write
    simp only []
    rw [if_pos (to_size_t_le_of_le _ _ hS0 ho hr)]
  · have hcount : to_write file size offset = file.sfs_size - offset := by
      rw [to_write_eq_to_read, to_read_eq_max file size offset (by omega) ho hlt (by omega)]
      omega
    have hlt' : ¬ to_size_t offset ≥ to_size_t file.sfs_size := by
      rw [to_size_t_of_nonneg _ hS0 (by omega), to_size_t_of_nonneg _ ho (by omega)]
      omega
    have hn : to_size_t (file.sfs_size - offset) = (file.sfs_size - offset).toNat :=
      to_size_t_of_nonneg _ (by omega) (by omega)
    unfold sfs_file_write
    simp only []
    rw [if_neg hlt', hcount, hn]
    unfold memcpy
    rw [if_pos ⟨ho, le_refl 0, by simp only [Int.toNat_zero]; omega, by omega⟩]
    exact ⟨_, rfl⟩

/-- A call of `sfs_file_write` on the record at position `pos` of a table that is defined
leaves the count, the number and order of the records, every record's name and size, and
every record at another position as they were, so `sfs_file_lookup` returns the same
position for every name before and after; a call of `sfs_file_read` on that record that is
defined leaves the table as it was.  The write is defined when the record's buffer holds
`sfs_size` bytes and the offset is at or past the end, or the requested size does not exceed
the bytes left and the caller's buffer holds at least the bytes left. -/
theorem sfs_file_write_at_frame (ctx : sfs_ctx) (pos : Nat) (buf : List Char) (size : Nat)
    (offset : Int) :
    (∀ ret ctx', sfs_file_write_at ctx pos buf size offset = some (ret, ctx') →
      ctx'.sfs_file_n = ctx.sfs_file_n ∧
      ctx'.sfs_files.length = ctx.sfs_files.length ∧
      ctx'.sfs_files.map sfs_file.sfs_name = ctx.sfs_files.map sfs_file.sfs_name ∧
      ctx'.sfs_files.map sfs_file.sfs_size = ctx.sfs_files.map sfs_file.sfs_size ∧
      (∀ j, j ≠ pos → ctx'.sfs_files[j]? = ctx.sfs_files[j]?) ∧
      (∀ n, (sfs_file_lookup ctx' n).1 = (sfs_file_lookup ctx n).1)) ∧
    (∀ ret buf' ctx', sfs_file_read_at ctx pos buf size offset = some (ret, buf', ctx') →
      ctx' = ctx) ∧
    (∀ file, ctx.sfs_files[pos]? = some file → record_ok file →
      ((file.sfs_size ≤ offset ∧ offset < 2 ^ 63) ∨
        (0 ≤ offset ∧ offset < file.sfs_size ∧ (size : Int) ≤ file.sfs_size - offset ∧
          file.sfs_size - offset ≤ buf.length)) →
      ∃ r, sfs_file_write_at ctx pos buf size offset = some r) := by
  refine ⟨?_, ?_, ?_⟩
  · intro ret ctx' h
    obtain ⟨file, file', hf, hw, he⟩ := sfs_file_write_at_some ctx pos buf size offset ret ctx' h
    obtain ⟨hname, hsize, _⟩ := sfs_file_write_some file buf size offset ret file' hw
    have hnames : ctx'.sfs_files.map sfs_file.sfs_name
        = ctx.sfs_files.map sfs_file.sfs_name := by
      rw [he]
      exact map_set_same sfs_file.sfs_name ctx.sfs_files pos file file' hf hname
    refine ⟨by rw [he], by rw [he]; simp, hnames, ?_, ?_, ?_⟩
    · rw [he]
      exact map_set_same sfs_file.sfs_size ctx.sfs_files pos file file' hf hsize
    · intro j hj
      rw [he]
      simp only []
      exact List.getElem?_set_ne (Ne.symm hj)
    · intro n
      unfold sfs_file_lookup
      simp only []
      exact lookup_loop_names _ _ _ 0 hnames
  · intro ret buf' ctx' h
    unfold sfs_file_read_at at h
    split at h
    · simp at h
    · split at h
      · simp at h
      · simp only [Option.some.injEq, Prod.mk.injEq] at h
        exact h.2.2.symm
  · intro file hf hok hin
    obtain ⟨r, hr⟩ := sfs_file_write_defined file buf size offset hok hin
    unfold sfs_file_write_at
    rw [hf]
    simp only [hr]
    exact ⟨_, rfl⟩

theorem sfs_file_write_at_frame_witness :
    sfs_file_write_at foo_bar_foo 2 "NEW".toList 3 0
      = some (3, { foo_bar_foo with
          sfs_files := foo_bar_foo.sfs_files.set 2
            { sfs_name := "foo".toList, sfs_data := "NEW".toList, sfs_size := 3 } }) ∧
    (sfs_file_lookup { foo_bar_foo with
        sfs_files := foo_bar_foo.sfs_files.set 2
          { sfs_name := "foo".toList, sfs_data := "NEW".toList, sfs_size := 3 } }
      "bar".toList).1 = (sfs_file_lookup foo_bar_foo "bar".toList).1 ∧
    (sfs_file_lookup foo_bar_foo "bar".toList).1 = some 1 :=
  ⟨by decide,
   ((sfs_file_write_at_frame foo_bar_foo 2 "NEW".toList 3 0).1 3 _ (by decide)).2.2.2.2.2
     "bar".toList,
   by decide⟩

/-! ## Writes of more bytes than the record has left -/

/-- A write before the end of a record that requests more bytes than the record has left
computes the requested size as count, and its `memcpy` leaves the bounds of the record's
buffer. -/
theorem sfs_file_write_overrun (file : sfs_file) (buf : List Char) (size : Nat)
    (offset : Int) (hok : record_ok file) (ho : 0 ≤ offset) (hlt : offset < file.sfs_size)
    (hsz : file.sfs_size - offset < size) (hmax : size < 2 ^ 31) :
    to_write file size offset = size ∧ sfs_file_write file buf size offset = none := by
  obtain ⟨hS0, hS1, hlen⟩ := hok
  unfold MAX_FILE_SIZE at hS1
  have hcount : to_write file size offset = size := by
    rw [to_write_eq_to_read, to_read_eq_max file size offset (by omega) ho hlt hmax]
    omega
  have hlt' : ¬ to_size_t offset ≥ to_size_t file.sfs_size := by
    rw [to_size_t_of_nonneg _ hS0 (by omega), to_size_t_of_nonneg _ ho (by omega)]
    omega
  have hn : to_size_t (size : Int) = size := by
    rw [to_size_t_of_nonneg _ (by omega) (by omega)]
    simp
  refine ⟨hcount, ?_⟩
  unfold sfs_file_write
  simp only []
  rw [if_neg hlt', hcount, hn]
  unfold memcpy
  rw [if_neg (by omega)]

/-- C17: after `simplefs_create ("/a")` on an initialised table, which leaves a record of
size 1 with a buffer of 1 byte, the call `simplefs_write ("/a", "AB", 2, 0)` computes the
count 2, not 1, so its `memcpy` copies 2 bytes into the 1-byte buffer: the copy leaves the
bounds of the record and the run has no defined table. -/
theorem simplefs_write_two_bytes_overruns :
    sfs_run (init_ctx ctx_zero) [sfs_op.create "/a".toList heap_ok] = some one_byte_table ∧
    one_byte_file.sfs_size = 1 ∧ one_byte_file.sfs_data.length = 1 ∧
    to_write one_byte_file 2 0 = 2 ∧
    memcpy one_byte_file.sfs_data 0 "AB".toList 0 2 = none ∧
    sfs_file_write one_byte_file "AB".toList 2 0 = none ∧
    simplefs_write one_byte_table "/a".toList "AB".toList 2 0 = none ∧
    sfs_run (init_ctx ctx_zero) create_then_write_two = none := by
  decide

/-- C20: on the table of the records `foo` (3 bytes), `bar` (1 byte) and `foo` (3 bytes), a
write of the 3 bytes "XYZ" at offset 0 to `bar`, by `sfs_file_write` on the record or by
`simplefs_write ("/bar", "XYZ", 3, 0)`, computes the count 3, not 1, so its `memcpy` copies
3 bytes to the 1-byte buffer of `bar`: 2 bytes go beyond the record's buffer, and the call
has no defined table. -/
theorem sfs_file_write_at_bar_overruns :
    foo_bar_foo.sfs_files[1]?
      = some { sfs_name := "bar".toList, sfs_data := "b".toList, sfs_size := 1 } ∧
    to_write { sfs_name := "bar".toList, sfs_data := "b".toList, sfs_size := 1 } 3 0 = 3 ∧
    memcpy "b".toList 0 "XYZ".toList 0 3 = none ∧
    sfs_file_write_at foo_bar_foo 1 "XYZ".toList 3 0 = none ∧
    simplefs_write foo_bar_foo "/bar".toList "XYZ".toList 3 0 = none := by
  decide

end SimpleFS
